import Mathlib

/-!
Shallow embedding of the sudoku-backend service (src/main.py) and proofs
about its hint engine, verification-code flows and ownership checks.

Grids are functions from a pair of indices to a natural number; the Python
code indexes lists of lists, which we model with a default-0 lookup when a
stored (list-of-lists) grid is read.  Times (datetime values) are modelled
as natural numbers ordered as the datetimes are.  Database tables are lists
of records, and each endpoint is a function from the database state (plus
the authenticated user and the request payload) to the new database state
and an HTTP outcome.
-/

namespace SudokuBackend

abbrev Grid := ℕ → ℕ → ℕ

/-! ### Candidate computation (get_candidates, main.py lines 192-208) -/

/-- The non-zero values of row number r of the board, in column order:
the values removed by the row check of get_candidates. -/
def rowVals (board : Grid) (row : ℕ) : List ℕ :=
  ((List.range 9).map fun j => board row j).filter fun v => decide (v ≠ 0)

/-- The non-zero values of column number c of the board, in row order:
the values removed by the column check of get_candidates. -/
def colVals (board : Grid) (col : ℕ) : List ℕ :=
  ((List.range 9).map fun i => board i col).filter fun v => decide (v ≠ 0)

/-- The cells of the 3x3 box containing (row, col), in row-major order,
with box origin 3*(row/3), 3*(col/3) as in the Python code. -/
def boxCells (row col : ℕ) : List (ℕ × ℕ) :=
  (List.range 3).flatMap fun a =>
    (List.range 3).map fun b => (3 * (row / 3) + a, 3 * (col / 3) + b)

/-- The non-zero values of the 3x3 box containing (row, col): the values
removed by the box check of get_candidates. -/
def boxVals (board : Grid) (row col : ℕ) : List ℕ :=
  ((boxCells row col).map fun c => board c.1 c.2).filter fun v => decide (v ≠ 0)

/-- get_candidates board row col: the digits 1..9 that do not occur as a
non-zero entry in the row, the column, or the 3x3 box of (row, col).
The Python function builds the set by removing the three value sets from
the set 1..9 and returns it as a list; we return the corresponding
duplicate-free list in increasing order. -/
def get_candidates (board : Grid) (row col : ℕ) : List ℕ :=
  ((List.range 9).map fun k => k + 1).filter fun d =>
    decide (d ∉ rowVals board row ∧ d ∉ colVals board col ∧ d ∉ boxVals board row col)

/-! ### is_incorrect_cell (main.py lines 211-214) -/

/-- A cell is incorrect when it is non-empty and differs from the solution. -/
def is_incorrect_cell (board solution : Grid) (row col : ℕ) : Bool :=
  if board row col = 0 then false
  else decide (board row col ≠ solution row col)

/-! ### Hint selection (get_hint, main.py lines 449-479) -/

/-- All 81 cells in row-major order, the order of the two nested loops
for i in range(9): for j in range(9). -/
def cells : List (ℕ × ℕ) :=
  (List.range 9).flatMap fun i => (List.range 9).map fun j => (i, j)

/-- Correction phase: the first cell, in row-major order, that is
non-empty and differs from the solution. -/
def findIncorrect (board solution : Grid) : Option (ℕ × ℕ) :=
  cells.find? fun c => is_incorrect_cell board solution c.1 c.2

/-- State of the completion-phase scan: the running minimum candidate
count (initially 10) and the cell currently held (initially none). -/
structure CompState where
  min_candidates : ℕ
  hint_cell : Option (ℕ × ℕ)
deriving DecidableEq, Repr

/-- One step of the completion-phase loop body: an empty cell whose
candidate count is strictly below the running minimum and positive
replaces the held cell; otherwise the state is unchanged. -/
def compStep (board : Grid) (s : CompState) (c : ℕ × ℕ) : CompState :=
  if board c.1 c.2 = 0 then
    if (get_candidates board c.1 c.2).length < s.min_candidates ∧
        0 < (get_candidates board c.1 c.2).length then
      ⟨(get_candidates board c.1 c.2).length, some c⟩
    else s
  else s

/-- The completion-phase scan over all 81 cells. -/
def completionScan (board : Grid) : CompState :=
  cells.foldl (compStep board) ⟨10, none⟩

/-- The data of a returned hint: cell, correct value, and whether the
cell held an incorrect entry (correction phase) or was empty
(completion phase). -/
structure HintResult where
  row : ℕ
  col : ℕ
  value : ℕ
  is_incorrect : Bool
deriving DecidableEq, Repr

/-- The hint chosen by get_hint: the first incorrect cell if any,
otherwise the completion-phase cell, otherwise none (no hint available).
The value is always read from the solution at the chosen cell. -/
def selectHint (board solution : Grid) : Option HintResult :=
  match findIncorrect board solution with
  | some c => some ⟨c.1, c.2, solution c.1 c.2, true⟩
  | none =>
    match (completionScan board).hint_cell with
    | some c => some ⟨c.1, c.2, solution c.1 c.2, false⟩
    | none => none

/-! ### Explanation lists (get_hint, main.py lines 488-499) -/

/-- The digits listed by the row clause of the explanation:
num for num in board[row] if num != 0 and num != board[row][col]. -/
def row_nums (board : Grid) (row col : ℕ) : List ℕ :=
  ((List.range 9).map fun j => board row j).filter fun num =>
    decide (num ≠ 0 ∧ num ≠ board row col)

/-- The digits listed by the column clause of the explanation:
board[i][col] for i in range(9) if board[i][col] != 0 and
(i != row or not is_incorrect). -/
def col_nums (board : Grid) (row col : ℕ) (isInc : Bool) : List ℕ :=
  ((List.range 9).filter fun i =>
    decide (board i col ≠ 0 ∧ (i ≠ row ∨ isInc = false))).map fun i => board i col

/-- The digits listed by the box clause of the explanation:
board[i][j] over the 3x3 box if board[i][j] != 0 and
(i != row or j != col or not is_incorrect). -/
def box_nums (board : Grid) (row col : ℕ) (isInc : Bool) : List ℕ :=
  ((boxCells row col).filter fun c =>
    decide (board c.1 c.2 ≠ 0 ∧ (c.1 ≠ row ∨ c.2 ≠ col ∨ isInc = false))).map
    fun c => board c.1 c.2

/-- What an explanation clause displays for a digit list: Python renders
the expression xs or 'no digits' so an empty list becomes the explicit
no-digits-present phrase. -/
inductive ShownDigits
  | noDigits
  | digits (l : List ℕ)
deriving DecidableEq, Repr

/-- The Python idiom xs or 'no digits present'. -/
def shownList (l : List ℕ) : ShownDigits :=
  if l.isEmpty then .noDigits else .digits l

/-! ### Database records (SQLAlchemy models, main.py lines 56-86)

A stored grid column (Text holding a JSON list of lists) is modelled as
the list of lists itself, since json.loads inverts json.dumps on these
values.  Datetimes are naturals. -/

/-- A row of the users table. -/
structure UserRec where
  id : String
  username : String
  email : String
  hashed_password : String
deriving DecidableEq, Repr

/-- A row of the game_states table. -/
structure GameStateRec where
  id : ℕ
  user_id : String
  board : List (List ℕ)
  initial_puzzle : List (List ℕ)
  solution : List (List ℕ)
  time_played : ℤ
  level : String
  created_at : ℕ
  is_hidden : Bool
deriving DecidableEq, Repr

/-- A row of the verification_codes table. -/
structure CodeRec where
  id : ℕ
  user_id : String
  code : String
  purpose : String
  created_at : ℕ
  expires_at : ℕ
deriving DecidableEq, Repr

/-- The database state: the three tables. -/
structure Db where
  users : List UserRec
  games : List GameStateRec
  codes : List CodeRec
deriving DecidableEq, Repr

/-- HTTP error outcomes raised by the endpoints under study. -/
inductive ApiError
  | notFound
  | forbidden
  | invalidCode
  | expiredCode
  | userNotFound
  | noHint
deriving DecidableEq, Repr

/-- Reading cell (i, j) of a stored list-of-lists grid. -/
def gridOf (g : List (List ℕ)) : Grid :=
  fun i j => (g.getD i []).getD j 0

/-! ### Verification-code endpoints (main.py lines 305-335 and 386-405) -/

/-- Request body of /verify-registration and /verify-code. -/
structure VerificationCodeSubmit where
  email : String
  code : String
deriving DecidableEq, Repr

/-- Request body of /reset-password. -/
structure PasswordReset where
  email : String
  code : String
  new_password : String
deriving DecidableEq, Repr

/-- db.query(VerificationCode).filter(code == v, purpose == p).first() -/
def findCode (db : Db) (code purpose : String) : Option CodeRec :=
  db.codes.find? fun vc => vc.code == code && vc.purpose == purpose

/-- db.query(User).filter(User.id == uid, User.email == email).first() -/
def findUserByIdEmail (db : Db) (uid email : String) : Option UserRec :=
  db.users.find? fun u => u.id == uid && u.email == email

/-- Password hashing is delegated to the external bcrypt collaborator; the
claims under study never inspect the hash, so any fixed function of the
password stands in for it. -/
def get_password_hash (password : String) : String :=
  String.append "bcrypt-hash:" password

/-- POST /verify-registration: look up the code by value and purpose
registration, fail InvalidCode if absent, ExpiredCode if past expiry,
user-not-found if the owning account does not carry the submitted email;
on success delete the code record. -/
def verify_registration (db : Db) (now : ℕ) (v : VerificationCodeSubmit) :
    Db × Except ApiError Unit :=
  match findCode db v.code "registration" with
  | none => (db, .error .invalidCode)
  | some vc =>
    if vc.expires_at < now then (db, .error .expiredCode)
    else
      match findUserByIdEmail db vc.user_id v.email with
      | none => (db, .error .userNotFound)
      | some _ =>
        ({ db with codes := db.codes.filter fun c => decide (c.id ≠ vc.id) }, .ok ())

/-- POST /verify-code: same checks as verify_registration but for purpose
password_reset, and the code record is NOT deleted on success. -/
def verify_code (db : Db) (now : ℕ) (v : VerificationCodeSubmit) :
    Db × Except ApiError Unit :=
  match findCode db v.code "password_reset" with
  | none => (db, .error .invalidCode)
  | some vc =>
    if vc.expires_at < now then (db, .error .expiredCode)
    else
      match findUserByIdEmail db vc.user_id v.email with
      | none => (db, .error .userNotFound)
      | some _ => (db, .ok ())

/-- POST /reset-password: the same three checks for purpose
password_reset; on success replace the user's password hash and delete
the code record in the same commit. -/
def reset_password (db : Db) (now : ℕ) (r : PasswordReset) :
    Db × Except ApiError Unit :=
  match findCode db r.code "password_reset" with
  | none => (db, .error .invalidCode)
  | some vc =>
    if vc.expires_at < now then (db, .error .expiredCode)
    else
      match findUserByIdEmail db vc.user_id r.email with
      | none => (db, .error .userNotFound)
      | some u =>
        ({ db with
            users := db.users.map fun x =>
              if x.id = u.id then
                { x with hashed_password := get_password_hash r.new_password }
              else x,
            codes := db.codes.filter fun c => decide (c.id ≠ vc.id) }, .ok ())

/-! ### Game endpoints (main.py lines 439-535) -/

/-- db.query(GameState).filter(GameState.id == game_id).first() -/
def findGame (db : Db) (game_id : ℕ) : Option GameStateRec :=
  db.games.find? fun g => g.id == game_id

/-- The JSON body returned by GET /hint: cell, value, whether the cell was
incorrect, and the three explanation clauses (their digit lists as
rendered, an empty list showing the no-digits phrase). -/
structure HintPayload where
  row : ℕ
  col : ℕ
  value : ℕ
  rowClause : ShownDigits
  colClause : ShownDigits
  boxClause : ShownDigits
  is_incorrect : Bool
deriving DecidableEq, Repr

/-- GET /hint/{game_id}: 404 if the game is absent, 403 if the requester
is not the owner, otherwise run the two-phase hint selection on the
stored board and solution and build the explanation; 400 no-hint when
neither phase selects a cell. -/
def get_hint (db : Db) (current_user : UserRec) (game_id : ℕ) :
    Except ApiError HintPayload :=
  match findGame db game_id with
  | none => .error .notFound
  | some db_game =>
    if db_game.user_id ≠ current_user.id then .error .forbidden
    else
      match selectHint (gridOf db_game.board) (gridOf db_game.solution) with
      | none => .error .noHint
      | some h =>
        .ok ⟨h.row, h.col, h.value,
          shownList (row_nums (gridOf db_game.board) h.row h.col),
          shownList (col_nums (gridOf db_game.board) h.row h.col h.is_incorrect),
          shownList (box_nums (gridOf db_game.board) h.row h.col h.is_incorrect),
          h.is_incorrect⟩

/-- Request body of PUT /game/{game_id}. -/
structure GameStateUpdate where
  board : List (List ℕ)
  time_played : ℤ
  is_hidden : Bool
deriving DecidableEq, Repr

/-- PUT /game/{game_id}: 404 if absent, 403 if the requester is not the
owner, otherwise overwrite exactly the board, time_played and is_hidden
columns of the row and return the updated row. -/
def update_game (db : Db) (current_user : UserRec) (game_id : ℕ)
    (game : GameStateUpdate) : Db × Except ApiError GameStateRec :=
  match findGame db game_id with
  | none => (db, .error .notFound)
  | some db_game =>
    if db_game.user_id ≠ current_user.id then (db, .error .forbidden)
    else
      let g := { db_game with
        board := game.board
        time_played := game.time_played
        is_hidden := game.is_hidden }
      ({ db with games := db.games.map fun x => if x.id = db_game.id then g else x },
       .ok g)

/-- DELETE /game/{game_id}: 404 if absent, 403 if the requester is not
the owner, otherwise remove the row. -/
def delete_game (db : Db) (current_user : UserRec) (game_id : ℕ) :
    Db × Except ApiError Unit :=
  match findGame db game_id with
  | none => (db, .error .notFound)
  | some db_game =>
    if db_game.user_id ≠ current_user.id then (db, .error .forbidden)
    else
      ({ db with games := db.games.filter fun x => decide (x.id ≠ db_game.id) },
       .ok ())

/-! ### Properties of a stored solution grid (data model, spec section 3)

A solution is a complete valid fill: every entry in 1..9 and no repeated
digit in a row, a column, or a 3x3 box (boxes share a cell exactly when
the row indices and the column indices agree after division by 3). -/

/-- The stored solution is a complete valid Sudoku grid. -/
def validSolution (sol : Grid) : Prop :=
  (∀ i, i < 9 → ∀ j, j < 9 → 1 ≤ sol i j ∧ sol i j ≤ 9) ∧
  (∀ i, i < 9 → ∀ a, a < 9 → ∀ b, b < 9 → sol i a = sol i b → a = b) ∧
  (∀ j, j < 9 → ∀ a, a < 9 → ∀ b, b < 9 → sol a j = sol b j → a = b) ∧
  (∀ a, a < 9 → ∀ b, b < 9 → ∀ c, c < 9 → ∀ d, d < 9 →
    a / 3 = c / 3 → b / 3 = d / 3 → sol a b = sol c d → a = c ∧ b = d)

/-! ### Spec-side candidate definition (spec section 4.1), for claim C5.

The specification describes candidates(board, row, col) as the set 1..9
minus the digits of the row, minus those of the column, minus those of
the containing box; these definitions follow the wording of the spec and
are compared with the implementation-side get_candidates above. -/

/-- The non-zero digits appearing in the row, as a set (per the spec). -/
def specRowDigits (board : Grid) (row : ℕ) : Finset ℕ :=
  ((Finset.range 9).filter fun j => board row j ≠ 0).image fun j => board row j

/-- The non-zero digits appearing in the column, as a set (per the spec). -/
def specColDigits (board : Grid) (col : ℕ) : Finset ℕ :=
  ((Finset.range 9).filter fun i => board i col ≠ 0).image fun i => board i col

/-- The non-zero digits appearing in the 3x3 box with origin
(3*(row/3), 3*(col/3)), as a set (per the spec). -/
def specBoxDigits (board : Grid) (row col : ℕ) : Finset ℕ :=
  ((Finset.range 3 ×ˢ Finset.range 3).filter fun p =>
    board (3 * (row / 3) + p.1) (3 * (col / 3) + p.2) ≠ 0).image fun p =>
    board (3 * (row / 3) + p.1) (3 * (col / 3) + p.2)

/-- The candidate set exactly as the spec words it. -/
def specCandidates (board : Grid) (row col : ℕ) : Finset ℕ :=
  Finset.Icc 1 9 \
    (specRowDigits board row ∪ specColDigits board col ∪ specBoxDigits board row col)

/-! ### Concrete data used to instantiate the theorems -/

/-- A complete valid Sudoku solution, as stored (list of lists). -/
def wSolList : List (List ℕ) :=
  [[1, 2, 3, 4, 5, 6, 7, 8, 9],
   [4, 5, 6, 7, 8, 9, 1, 2, 3],
   [7, 8, 9, 1, 2, 3, 4, 5, 6],
   [2, 3, 1, 5, 6, 4, 8, 9, 7],
   [5, 6, 4, 8, 9, 7, 2, 3, 1],
   [8, 9, 7, 2, 3, 1, 5, 6, 4],
   [3, 1, 2, 6, 4, 5, 9, 7, 8],
   [6, 4, 5, 9, 7, 8, 3, 1, 2],
   [9, 7, 8, 3, 1, 2, 6, 4, 5]]

/-- A board holding the digit 3 at (0,0) and at (1,0) and nothing else:
against wSolList, cell (0,0) is incorrect (the solution digit is 1) and
the digit 3 reappears in column 0 and in the top-left box. -/
def cexBoardList : List (List ℕ) :=
  [[3, 0, 0, 0, 0, 0, 0, 0, 0],
   [3, 0, 0, 0, 0, 0, 0, 0, 0],
   [0, 0, 0, 0, 0, 0, 0, 0, 0],
   [0, 0, 0, 0, 0, 0, 0, 0, 0],
   [0, 0, 0, 0, 0, 0, 0, 0, 0],
   [0, 0, 0, 0, 0, 0, 0, 0, 0],
   [0, 0, 0, 0, 0, 0, 0, 0, 0],
   [0, 0, 0, 0, 0, 0, 0, 0, 0],
   [0, 0, 0, 0, 0, 0, 0, 0, 0]]

/-- An entirely empty stored board. -/
def emptyBoardList : List (List ℕ) := List.replicate 9 (List.replicate 9 0)

/-- A board that is empty except for the digit 5 at (0,1), which is
incorrect against wSolList (the solution digit there is 2). -/
def wBoard3List : List (List ℕ) :=
  [[0, 5, 0, 0, 0, 0, 0, 0, 0],
   [0, 0, 0, 0, 0, 0, 0, 0, 0],
   [0, 0, 0, 0, 0, 0, 0, 0, 0],
   [0, 0, 0, 0, 0, 0, 0, 0, 0],
   [0, 0, 0, 0, 0, 0, 0, 0, 0],
   [0, 0, 0, 0, 0, 0, 0, 0, 0],
   [0, 0, 0, 0, 0, 0, 0, 0, 0],
   [0, 0, 0, 0, 0, 0, 0, 0, 0],
   [0, 0, 0, 0, 0, 0, 0, 0, 0]]

/-- The owner account used in the concrete instances. -/
def wAlice : UserRec := ⟨"u1", "alice", "a@x.com", "h1"⟩

/-- A different authenticated account, not the owner. -/
def wMallory : UserRec := ⟨"u2", "mallory", "m@x.com", "h2"⟩

/-- A stored game session owned by wAlice whose board equals its solution
(fully and correctly filled). -/
def wGameDone : GameStateRec :=
  ⟨1, "u1", wSolList, wSolList, wSolList, 100, "easy", 0, false⟩

/-- A stored game session owned by wAlice with the two-3s board. -/
def wGameCex : GameStateRec :=
  ⟨1, "u1", cexBoardList, emptyBoardList, wSolList, 100, "easy", 0, false⟩

/-- A registration verification code owned by wAlice, expiring at 100. -/
def wCodeReg : CodeRec := ⟨1, "u1", "123456", "registration", 0, 100⟩

/-- A password-reset verification code owned by wAlice, expiring at 100. -/
def wCodeReset : CodeRec := ⟨2, "u1", "654321", "password_reset", 0, 100⟩

/-- A database with the two accounts, the completed game and both codes. -/
def wDbDone : Db := ⟨[wAlice, wMallory], [wGameDone], [wCodeReg, wCodeReset]⟩

/-- A database with the two accounts and the two-3s game. -/
def wDbCex : Db := ⟨[wAlice, wMallory], [wGameCex], [wCodeReg, wCodeReset]⟩

/-- An update request used to instantiate the update-session theorems. -/
def wUpdate : GameStateUpdate := ⟨cexBoardList, 250, true⟩

/-- A submission of the registration code by wAlice's email. -/
def wSubmitReg : VerificationCodeSubmit := ⟨"a@x.com", "123456"⟩

/-- A submission of the reset code by wAlice's email. -/
def wSubmitReset : VerificationCodeSubmit := ⟨"a@x.com", "654321"⟩

/-- A password-reset request carrying the reset code. -/
def wResetReq : PasswordReset := ⟨"a@x.com", "654321", "newpw"⟩

set_option synthInstance.maxSize 2000 in
instance (sol : Grid) : Decidable (validSolution sol) := by
  unfold validSolution; infer_instance

/-!
## Theorems
-/

/-- C1: for every stored game session, getHint, updateSession and
deleteSession all fail with Forbidden when the authenticated requester is
not the record's owner, and the database state is unchanged. -/
theorem claim_C1 (db : Db) (cu : UserRec) (gid : ℕ) (g : GameStateRec)
    (u : GameStateUpdate)
    (hfind : findGame db gid = some g) (hown : g.user_id ≠ cu.id) :
    get_hint db cu gid = .error .forbidden ∧
    update_game db cu gid u = (db, .error .forbidden) ∧
    delete_game db cu gid = (db, .error .forbidden) := by
  refine ⟨?_, ?_, ?_⟩ <;> simp [get_hint, update_game, delete_game, hfind, hown]

theorem claim_C1_witness :
    get_hint wDbDone wMallory 1 = .error .forbidden ∧
    update_game wDbDone wMallory 1 wUpdate = (wDbDone, .error .forbidden) ∧
    delete_game wDbDone wMallory 1 = (wDbDone, .error .forbidden) :=
  claim_C1 wDbDone wMallory 1 wGameDone wUpdate (by decide) (by decide)

/-- C10: an owner update of an existing session replaces exactly the
board, time_played and is_hidden fields; id, user_id, initial_puzzle,
solution, level and created_at are unchanged, for any submitted board. -/
theorem claim_C10 (db : Db) (cu : UserRec) (gid : ℕ) (g : GameStateRec)
    (u : GameStateUpdate)
    (hfind : findGame db gid = some g) (hown : g.user_id = cu.id) :
    ∃ g₂, update_game db cu gid u =
        ({ db with games := db.games.map fun x => if x.id = g.id then g₂ else x },
         .ok g₂) ∧
      g₂.board = u.board ∧ g₂.time_played = u.time_played ∧
      g₂.is_hidden = u.is_hidden ∧ g₂.initial_puzzle = g.initial_puzzle ∧
      g₂.solution = g.solution ∧ g₂.level = g.level ∧ g₂.user_id = g.user_id ∧
      g₂.id = g.id ∧ g₂.created_at = g.created_at := by
  refine ⟨{ g with
      board := u.board
      time_played := u.time_played
      is_hidden := u.is_hidden }, ?_, rfl, rfl, rfl, rfl, rfl, rfl, rfl, rfl, rfl⟩
  simp [update_game, hfind, hown]

theorem claim_C10_witness :
    ∃ g₂, update_game wDbCex wAlice 1 wUpdate =
        ({ wDbCex with
            games := wDbCex.games.map fun x => if x.id = wGameCex.id then g₂ else x },
         .ok g₂) ∧
      g₂.board = wUpdate.board ∧ g₂.time_played = wUpdate.time_played ∧
      g₂.is_hidden = wUpdate.is_hidden ∧ g₂.initial_puzzle = wGameCex.initial_puzzle ∧
      g₂.solution = wGameCex.solution ∧ g₂.level = wGameCex.level ∧
      g₂.user_id = wGameCex.user_id ∧ g₂.id = wGameCex.id ∧
      g₂.created_at = wGameCex.created_at :=
  claim_C10 wDbCex wAlice 1 wGameCex wUpdate (by decide) (by decide)

/-- C6: in all three code-validation endpoints, a missing (code, purpose)
match fails InvalidCode first; a found but expired code (expiry strictly
before now) fails ExpiredCode next, regardless of the submitted email;
only then is the owning account checked against the submitted email. -/
theorem claim_C6 (db : Db) (now : ℕ) (v : VerificationCodeSubmit)
    (r : PasswordReset) :
    ((findCode db v.code "registration" = none →
        (verify_registration db now v).2 = .error .invalidCode) ∧
     (∀ vc, findCode db v.code "registration" = some vc → vc.expires_at < now →
        (verify_registration db now v).2 = .error .expiredCode) ∧
     (∀ vc, findCode db v.code "registration" = some vc → ¬ vc.expires_at < now →
        findUserByIdEmail db vc.user_id v.email = none →
        (verify_registration db now v).2 = .error .userNotFound)) ∧
    ((findCode db v.code "password_reset" = none →
        (verify_code db now v).2 = .error .invalidCode) ∧
     (∀ vc, findCode db v.code "password_reset" = some vc → vc.expires_at < now →
        (verify_code db now v).2 = .error .expiredCode) ∧
     (∀ vc, findCode db v.code "password_reset" = some vc → ¬ vc.expires_at < now →
        findUserByIdEmail db vc.user_id v.email = none →
        (verify_code db now v).2 = .error .userNotFound)) ∧
    ((findCode db r.code "password_reset" = none →
        (reset_password db now r).2 = .error .invalidCode) ∧
     (∀ vc, findCode db r.code "password_reset" = some vc → vc.expires_at < now →
        (reset_password db now r).2 = .error .expiredCode) ∧
     (∀ vc, findCode db r.code "password_reset" = some vc → ¬ vc.expires_at < now →
        findUserByIdEmail db vc.user_id r.email = none →
        (reset_password db now r).2 = .error .userNotFound)) := by
  refine ⟨⟨?_, ?_, ?_⟩, ⟨?_, ?_, ?_⟩, ⟨?_, ?_, ?_⟩⟩
  · intro h; simp [verify_registration, h]
  · intro vc h hexp; simp [verify_registration, h, hexp]
  · intro vc h hexp hu; simp [verify_registration, h, hexp, hu]
  · intro h; simp [verify_code, h]
  · intro vc h hexp; simp [verify_code, h, hexp]
  · intro vc h hexp hu; simp [verify_code, h, hexp, hu]
  · intro h; simp [reset_password, h]
  · intro vc h hexp; simp [reset_password, h, hexp]
  · intro vc h hexp hu; simp [reset_password, h, hexp, hu]

theorem claim_C6_witness :
    (verify_registration wDbDone 200 wSubmitReg).2 = .error .expiredCode ∧
    (verify_code wDbDone 200 wSubmitReset).2 = .error .expiredCode ∧
    (reset_password wDbDone 200 wResetReq).2 = .error .expiredCode :=
  ⟨(claim_C6 wDbDone 200 wSubmitReg wResetReq).1.2.1 wCodeReg (by decide) (by decide),
   (claim_C6 wDbDone 200 wSubmitReset wResetReq).2.1.2.1 wCodeReset (by decide)
     (by decide),
   (claim_C6 wDbDone 200 wSubmitReg wResetReq).2.2.2.1 wCodeReset (by decide)
     (by decide)⟩

/-- C9: a successful bare verify-code probe leaves the database unchanged
(the code record is neither deleted nor modified), so repeating the probe
at any time not later than the first succeeds again. -/
theorem claim_C9 (db : Db) (now now₂ : ℕ) (v : VerificationCodeSubmit)
    (hok : (verify_code db now v).2 = .ok ()) (h₂ : now₂ ≤ now) :
    (verify_code db now v).1 = db ∧
    (verify_code ((verify_code db now v).1) now₂ v).2 = .ok () := by
  cases hf : findCode db v.code "password_reset" with
  | none => simp [verify_code, hf] at hok
  | some vc =>
    by_cases hexp : vc.expires_at < now
    · simp [verify_code, hf, hexp] at hok
    · cases hu : findUserByIdEmail db vc.user_id v.email with
      | none => simp [verify_code, hf, hexp, hu] at hok
      | some u =>
        have hexp₂ : ¬ vc.expires_at < now₂ := by omega
        simp [verify_code, hf, hexp, hexp₂, hu]

theorem claim_C9_witness :
    (verify_code wDbDone 50 wSubmitReset).1 = wDbDone ∧
    (verify_code ((verify_code wDbDone 50 wSubmitReset).1) 50 wSubmitReset).2 =
      .ok () :=
  claim_C9 wDbDone 50 50 wSubmitReset (by rfl) (le_refl 50)

lemma verify_registration_invalid (db : Db) (now : ℕ) (v : VerificationCodeSubmit)
    (h : findCode db v.code "registration" = none) :
    verify_registration db now v = (db, .error .invalidCode) := by
  unfold verify_registration
  rw [h]

lemma reset_password_invalid (db : Db) (now : ℕ) (r : PasswordReset)
    (h : findCode db r.code "password_reset" = none) :
    reset_password db now r = (db, .error .invalidCode) := by
  unfold reset_password
  rw [h]

/-- C2: a successful confirmRegistration or resetPassword deletes the
consumed code record in the same operation, so when no other stored
record carries that code value and purpose, submitting the same code
again fails InvalidCode at any later time, even before the expiry. -/
theorem claim_C2 :
    (∀ (db : Db) (now now₂ : ℕ) (v : VerificationCodeSubmit) (vc : CodeRec),
        findCode db v.code "registration" = some vc →
        (verify_registration db now v).2 = .ok () →
        (∀ c ∈ db.codes, c.code = v.code → c.purpose = "registration" →
          c.id = vc.id) →
        vc ∉ (verify_registration db now v).1.codes ∧
        (verify_registration (verify_registration db now v).1 now₂ v).2 =
          .error .invalidCode) ∧
    (∀ (db : Db) (now now₂ : ℕ) (r : PasswordReset) (vc : CodeRec),
        findCode db r.code "password_reset" = some vc →
        (reset_password db now r).2 = .ok () →
        (∀ c ∈ db.codes, c.code = r.code → c.purpose = "password_reset" →
          c.id = vc.id) →
        vc ∉ (reset_password db now r).1.codes ∧
        (reset_password (reset_password db now r).1 now₂ r).2 =
          .error .invalidCode) := by
  constructor
  · intro db now now₂ v vc hf hok huniq
    by_cases hexp : vc.expires_at < now
    · simp [verify_registration, hf, hexp] at hok
    · cases hu : findUserByIdEmail db vc.user_id v.email with
      | none => simp [verify_registration, hf, hexp, hu] at hok
      | some u =>
        have hfst : (verify_registration db now v).1 =
            { db with codes := db.codes.filter fun c => decide (c.id ≠ vc.id) } := by
          simp [verify_registration, hf, hexp, hu]
        rw [hfst]
        constructor
        · intro hmem
          rw [List.mem_filter] at hmem
          simp at hmem
        · have hnone : findCode
              { db with codes := db.codes.filter fun c => decide (c.id ≠ vc.id) }
              v.code "registration" = none := by
            apply List.find?_eq_none.mpr
            intro c hc
            rw [List.mem_filter] at hc
            obtain ⟨hcdb, hcid⟩ := hc
            simp only [decide_eq_true_eq] at hcid
            intro hpred
            simp only [Bool.and_eq_true, beq_iff_eq] at hpred
            exact hcid (huniq c hcdb hpred.1 hpred.2)
          rw [verify_registration_invalid _ now₂ _ hnone]
  · intro db now now₂ r vc hf hok huniq
    by_cases hexp : vc.expires_at < now
    · simp [reset_password, hf, hexp] at hok
    · cases hu : findUserByIdEmail db vc.user_id r.email with
      | none => simp [reset_password, hf, hexp, hu] at hok
      | some u =>
        have hfst : (reset_password db now r).1 =
            { db with
                users := db.users.map fun x =>
                  if x.id = u.id then
                    { x with hashed_password := get_password_hash r.new_password }
                  else x,
                codes := db.codes.filter fun c => decide (c.id ≠ vc.id) } := by
          simp [reset_password, hf, hexp, hu]
        rw [hfst]
        constructor
        · intro hmem
          rw [List.mem_filter] at hmem
          simp at hmem
        · have hnone : findCode
              { db with
                users := db.users.map fun x =>
                  if x.id = u.id then
                    { x with hashed_password := get_password_hash r.new_password }
                  else x,
                codes := db.codes.filter fun c => decide (c.id ≠ vc.id) }
              r.code "password_reset" = none := by
            apply List.find?_eq_none.mpr
            intro c hc
            rw [List.mem_filter] at hc
            obtain ⟨hcdb, hcid⟩ := hc
            simp only [decide_eq_true_eq] at hcid
            intro hpred
            simp only [Bool.and_eq_true, beq_iff_eq] at hpred
            exact hcid (huniq c hcdb hpred.1 hpred.2)
          rw [reset_password_invalid _ now₂ _ hnone]

theorem claim_C2_witness :
    (wCodeReg ∉ (verify_registration wDbDone 50 wSubmitReg).1.codes ∧
      (verify_registration (verify_registration wDbDone 50 wSubmitReg).1 60
        wSubmitReg).2 = .error .invalidCode) ∧
    (wCodeReset ∉ (reset_password wDbDone 50 wResetReq).1.codes ∧
      (reset_password (reset_password wDbDone 50 wResetReq).1 60 wResetReq).2 =
        .error .invalidCode) :=
  ⟨claim_C2.1 wDbDone 50 60 wSubmitReg wCodeReg (by decide) (by rfl) (by decide),
   claim_C2.2 wDbDone 50 60 wResetReq wCodeReset (by decide) (by rfl) (by decide)⟩

/-! ### Structure of the candidate lists and of the row-major cell order -/

lemma mem_rowVals {board : Grid} {row d : ℕ} :
    d ∈ rowVals board row ↔ (∃ jj, jj < 9 ∧ board row jj = d) ∧ d ≠ 0 := by
  simp [rowVals, List.mem_filter, List.mem_map, List.mem_range]

lemma mem_colVals {board : Grid} {col d : ℕ} :
    d ∈ colVals board col ↔ (∃ ii, ii < 9 ∧ board ii col = d) ∧ d ≠ 0 := by
  simp [colVals, List.mem_filter, List.mem_map, List.mem_range]

lemma mem_boxCells {row col : ℕ} {c : ℕ × ℕ} :
    c ∈ boxCells row col ↔
      ∃ a, a < 3 ∧ ∃ b, b < 3 ∧ c = (3 * (row / 3) + a, 3 * (col / 3) + b) := by
  simp [boxCells, List.mem_flatMap, List.mem_map, List.mem_range, eq_comm]

lemma mem_boxVals {board : Grid} {row col d : ℕ} :
    d ∈ boxVals board row col ↔
      (∃ c ∈ boxCells row col, board c.1 c.2 = d) ∧ d ≠ 0 := by
  simp [boxVals, List.mem_filter, List.mem_map]

lemma mem_get_candidates {board : Grid} {row col d : ℕ} :
    d ∈ get_candidates board row col ↔
      (1 ≤ d ∧ d ≤ 9) ∧ d ∉ rowVals board row ∧ d ∉ colVals board col ∧
        d ∉ boxVals board row col := by
  simp only [get_candidates, List.mem_filter, List.mem_map, List.mem_range,
    decide_eq_true_eq]
  constructor
  · rintro ⟨⟨k, hk, rfl⟩, h⟩
    exact ⟨⟨by omega, by omega⟩, h⟩
  · rintro ⟨⟨h1, h9⟩, h⟩
    exact ⟨⟨d - 1, by omega, by omega⟩, h⟩

lemma length_get_candidates_le (board : Grid) (row col : ℕ) :
    (get_candidates board row col).length ≤ 9 := by
  have h := List.length_filter_le
    (fun d => decide (d ∉ rowVals board row ∧ d ∉ colVals board col ∧
      d ∉ boxVals board row col))
    ((List.range 9).map fun k => k + 1)
  simpa [get_candidates] using h

lemma nodup_get_candidates (board : Grid) (row col : ℕ) :
    (get_candidates board row col).Nodup := by
  refine List.Nodup.filter _ (List.Nodup.map ?_ (List.nodup_range 9))
  intro a b hab
  simpa using hab

lemma mem_cells {c : ℕ × ℕ} : c ∈ cells ↔ c.1 < 9 ∧ c.2 < 9 := by
  obtain ⟨i, j⟩ := c
  simp [cells, List.mem_flatMap, List.mem_map, List.mem_range, Prod.ext_iff]

lemma find?_first {α : Type} (p : α → Bool) (l₁ l₂ : List α) (x : α)
    (hx : p x = true) (h₁ : ∀ c ∈ l₁, p c = false) :
    (l₁ ++ x :: l₂).find? p = some x := by
  have hn : l₁.find? p = none := List.find?_eq_none.mpr fun y hy => by simp [h₁ y hy]
  rw [List.find?_append, hn, List.find?_cons_of_pos _ hx]
  rfl

lemma cells_eq_rank_map : cells = (List.range 81).map fun n => (n / 9, n % 9) := by
  decide

lemma cells_split (i j : ℕ) (hi : i < 9) (hj : j < 9) :
    ∃ l₁ l₂, cells = l₁ ++ (i, j) :: l₂ ∧
      (∀ c ∈ l₁, c.1 < 9 ∧ c.2 < 9 ∧ 9 * c.1 + c.2 < 9 * i + j) ∧
      (∀ c ∈ l₂, c.1 < 9 ∧ c.2 < 9) := by
  have hsplit : List.range 81 =
      List.range (9 * i + j) ++
        (List.range (81 - (9 * i + j))).map ((9 * i + j) + ·) := by
    have h := List.range_add (9 * i + j) (81 - (9 * i + j))
    rw [show 9 * i + j + (81 - (9 * i + j)) = 81 from by omega] at h
    exact h
  have h1 : 81 - (9 * i + j) = (80 - (9 * i + j)) + 1 := by omega
  have h2 : List.range (81 - (9 * i + j)) =
      0 :: (List.range (80 - (9 * i + j))).map Nat.succ := by
    rw [h1, List.range_succ_eq_map]
  rw [h2] at hsplit
  have heq : cells =
      ((List.range (9 * i + j)).map fun n => (n / 9, n % 9)) ++ (i, j) ::
        ((((List.range (80 - (9 * i + j))).map Nat.succ).map ((9 * i + j) + ·)).map
          fun n => (n / 9, n % 9)) := by
    rw [cells_eq_rank_map, hsplit, List.map_append, List.map_cons, List.map_cons]
    congr 2
    show ((9 * i + j + 0) / 9, (9 * i + j + 0) % 9) = (i, j)
    have e1 : (9 * i + j + 0) / 9 = i := by omega
    have e2 : (9 * i + j + 0) % 9 = j := by omega
    rw [e1, e2]
  refine ⟨_, _, heq, ?_, ?_⟩
  · intro c hc
    simp only [List.mem_map, List.mem_range] at hc
    obtain ⟨n, hn, rfl⟩ := hc
    refine ⟨?_, ?_, ?_⟩
    · show n / 9 < 9
      omega
    · show n % 9 < 9
      omega
    · show 9 * (n / 9) + n % 9 < 9 * i + j
      omega
  · intro c hc
    have hcc : c ∈ cells := by
      rw [heq]
      exact List.mem_append_right _ (List.mem_cons_of_mem _ hc)
    exact mem_cells.mp hcc

/-! ### Behaviour of the completion-phase fold -/

lemma compStep_cases (board : Grid) (s : CompState) (a : ℕ × ℕ) :
    compStep board s a = s ∨
      (board a.1 a.2 = 0 ∧
        (get_candidates board a.1 a.2).length < s.min_candidates ∧
        0 < (get_candidates board a.1 a.2).length ∧
        compStep board s a = ⟨(get_candidates board a.1 a.2).length, some a⟩) := by
  unfold compStep
  split_ifs with h1 h2
  · exact Or.inr ⟨h1, h2.1, h2.2, rfl⟩
  · exact Or.inl rfl
  · exact Or.inl rfl

lemma foldl_comp_min_le (board : Grid) (l : List (ℕ × ℕ)) (s : CompState) :
    (l.foldl (compStep board) s).min_candidates ≤ s.min_candidates := by
  induction l generalizing s with
  | nil => exact le_refl _
  | cons a l ih =>
    rw [List.foldl_cons]
    refine le_trans (ih _) ?_
    rcases compStep_cases board s a with he | ⟨_, h2, _, he⟩
    · rw [he]
    · rw [he]
      exact le_of_lt h2

lemma foldl_comp_keep (board : Grid) (l : List (ℕ × ℕ)) (s : CompState)
    (h : ∀ c ∈ l, board c.1 c.2 = 0 → 0 < (get_candidates board c.1 c.2).length →
      s.min_candidates ≤ (get_candidates board c.1 c.2).length) :
    l.foldl (compStep board) s = s := by
  induction l with
  | nil => rfl
  | cons a l ih =>
    rw [List.foldl_cons]
    have hstep : compStep board s a = s := by
      rcases compStep_cases board s a with he | ⟨h1, h2, h3, _⟩
      · exact he
      · exact absurd h2 (not_lt.mpr (h a (List.mem_cons_self a l) h1 h3))
    rw [hstep]
    exact ih fun c hc => h c (List.mem_cons_of_mem _ hc)

lemma foldl_comp_le (board : Grid) (l : List (ℕ × ℕ)) (s : CompState)
    (c : ℕ × ℕ) (hmem : c ∈ l) (h0 : board c.1 c.2 = 0)
    (hpos : 0 < (get_candidates board c.1 c.2).length) :
    (l.foldl (compStep board) s).min_candidates ≤
      (get_candidates board c.1 c.2).length := by
  induction l generalizing s with
  | nil => cases hmem
  | cons a l ih =>
    rw [List.foldl_cons]
    rcases List.mem_cons.mp hmem with rfl | hmem₂
    · refine le_trans (foldl_comp_min_le board l _) ?_
      rcases compStep_cases board s c with he | ⟨_, _, _, he⟩
      · rw [he]
        by_contra hlt
        have h2 : (get_candidates board c.1 c.2).length < s.min_candidates :=
          lt_of_not_le hlt
        rcases compStep_cases board s c with he₂ | ⟨_, _, _, he₂⟩
        · -- compStep kept s although the cell qualifies: impossible
          have : compStep board s c = ⟨(get_candidates board c.1 c.2).length, some c⟩ := by
            unfold compStep
            rw [if_pos h0, if_pos ⟨h2, hpos⟩]
          rw [this] at he
          have := congrArg CompState.min_candidates he
          dsimp at this
          omega
        · rw [he₂] at he
          have := congrArg CompState.min_candidates he
          dsimp at this
          omega
      · rw [he]
    · exact ih _ hmem₂

lemma foldl_comp_some (board : Grid) (l : List (ℕ × ℕ)) (s : CompState)
    (h : s.hint_cell.isSome) : (l.foldl (compStep board) s).hint_cell.isSome := by
  induction l generalizing s with
  | nil => exact h
  | cons a l ih =>
    rw [List.foldl_cons]
    apply ih
    rcases compStep_cases board s a with he | ⟨_, _, _, he⟩
    · rw [he]; exact h
    · rw [he]; rfl

lemma foldl_comp_none (board : Grid) (l : List (ℕ × ℕ)) (s : CompState)
    (h : (l.foldl (compStep board) s).hint_cell = none) :
    l.foldl (compStep board) s = s := by
  induction l generalizing s with
  | nil => rfl
  | cons a l ih =>
    rw [List.foldl_cons] at h ⊢
    rcases compStep_cases board s a with he | ⟨_, _, _, he⟩
    · rw [he] at h ⊢
      exact ih _ h
    · exfalso
      have hsome := foldl_comp_some board l (compStep board s a) (by rw [he]; rfl)
      rw [h] at hsome
      exact Bool.noConfusion hsome

lemma foldl_comp_gt (board : Grid) (l : List (ℕ × ℕ)) (s : CompState) (m : ℕ)
    (hl : ∀ c ∈ l, board c.1 c.2 = 0 → 0 < (get_candidates board c.1 c.2).length →
      m < (get_candidates board c.1 c.2).length)
    (hs : m < s.min_candidates) :
    m < (l.foldl (compStep board) s).min_candidates := by
  induction l generalizing s with
  | nil => exact hs
  | cons a l ih =>
    rw [List.foldl_cons]
    refine ih _ (fun c hc => hl c (List.mem_cons_of_mem _ hc)) ?_
    rcases compStep_cases board s a with he | ⟨h1, _, h3, he⟩
    · rw [he]; exact hs
    · rw [he]; exact hl a (List.mem_cons_self a l) h1 h3

/-- The completion phase selects the row-major-first empty cell whose
candidate count equals the minimal positive candidate count, and a later
cell with an equal count never displaces it. -/
lemma completionScan_first (board : Grid) (i j m : ℕ) (hi : i < 9) (hj : j < 9)
    (h0 : board i j = 0) (hm : (get_candidates board i j).length = m)
    (hmpos : 0 < m)
    (hmin : ∀ a, a < 9 → ∀ b, b < 9 → board a b = 0 →
      0 < (get_candidates board a b).length → m ≤ (get_candidates board a b).length)
    (hfirst : ∀ a, a < 9 → ∀ b, b < 9 → 9 * a + b < 9 * i + j → board a b = 0 →
      (get_candidates board a b).length ≠ m) :
    (completionScan board).hint_cell = some (i, j) := by
  obtain ⟨l₁, l₂, heq, hl₁, hl₂⟩ := cells_split i j hi hj
  unfold completionScan
  rw [heq, List.foldl_append, List.foldl_cons]
  have hgt : m < (l₁.foldl (compStep board) ⟨10, none⟩).min_candidates := by
    apply foldl_comp_gt
    · intro c hc hc0 hcpos
      obtain ⟨hc1, hc2, hc3⟩ := hl₁ c hc
      have hge := hmin c.1 hc1 c.2 hc2 hc0 hcpos
      have hne := hfirst c.1 hc1 c.2 hc2 hc3 hc0
      omega
    · have h9 := length_get_candidates_le board i j
      show m < 10
      omega
  have hstep : compStep board (l₁.foldl (compStep board) ⟨10, none⟩) (i, j) =
      ⟨m, some (i, j)⟩ := by
    unfold compStep
    rw [if_pos h0, if_pos ⟨by rw [hm]; exact hgt, by rw [hm]; exact hmpos⟩, hm]
  rw [hstep]
  have hkeep : l₂.foldl (compStep board) ⟨m, some (i, j)⟩ = ⟨m, some (i, j)⟩ := by
    apply foldl_comp_keep
    intro c hc hc0 hcpos
    obtain ⟨hc1, hc2⟩ := hl₂ c hc
    exact hmin c.1 hc1 c.2 hc2 hc0 hcpos
  rw [hkeep]

/-- C3: when (i, j) is the row-major-first cell that is non-empty and
differs from the solution, the hint is a correction at (i, j) carrying
the solution digit; and any board holding such a cell never produces a
completion-phase result. -/
theorem claim_C3 (board solution : Grid) (i j : ℕ) (hi : i < 9) (hj : j < 9)
    (hinc : is_incorrect_cell board solution i j = true)
    (hfirst : ∀ a, a < 9 → ∀ b, b < 9 → 9 * a + b < 9 * i + j →
      is_incorrect_cell board solution a b = false) :
    selectHint board solution = some ⟨i, j, solution i j, true⟩ ∧
    ∀ res, selectHint board solution = some res → res.is_incorrect = true := by
  have hfi : findIncorrect board solution = some (i, j) := by
    obtain ⟨l₁, l₂, heq, hl₁, hl₂⟩ := cells_split i j hi hj
    unfold findIncorrect
    rw [heq]
    apply find?_first
    · exact hinc
    · intro c hc
      obtain ⟨h1, h2, h3⟩ := hl₁ c hc
      exact hfirst c.1 h1 c.2 h2 h3
  constructor
  · unfold selectHint
    rw [hfi]
  · intro res hres
    unfold selectHint at hres
    rw [hfi] at hres
    cases hres
    rfl

theorem claim_C3_witness :
    selectHint (gridOf wBoard3List) (gridOf wSolList) =
      some ⟨0, 1, gridOf wSolList 0 1, true⟩ :=
  (claim_C3 (gridOf wBoard3List) (gridOf wSolList) 0 1 (by decide) (by decide)
    (by decide) (by decide)).1

/-- C4: with no incorrect cell on the board, the hint is the row-major-
first empty cell whose candidate count m equals the minimal positive
candidate count over all empty cells (an equal count never overwrites the
held cell), with the solution digit and wasIncorrect = false; on an
entirely empty board this is cell (0, 0). -/
theorem claim_C4 (board solution : Grid) (i j m : ℕ) (hi : i < 9) (hj : j < 9)
    (hnoinc : ∀ a, a < 9 → ∀ b, b < 9 → is_incorrect_cell board solution a b = false)
    (h0 : board i j = 0) (hm : (get_candidates board i j).length = m)
    (hmpos : 0 < m)
    (hmin : ∀ a, a < 9 → ∀ b, b < 9 → board a b = 0 →
      0 < (get_candidates board a b).length → m ≤ (get_candidates board a b).length)
    (hfirst : ∀ a, a < 9 → ∀ b, b < 9 → 9 * a + b < 9 * i + j → board a b = 0 →
      (get_candidates board a b).length ≠ m) :
    selectHint board solution = some ⟨i, j, solution i j, false⟩ := by
  have hfi : findIncorrect board solution = none := by
    apply List.find?_eq_none.mpr
    intro c hc
    have hb := hnoinc c.1 (mem_cells.mp hc).1 c.2 (mem_cells.mp hc).2
    simp [hb]
  unfold selectHint
  rw [hfi, completionScan_first board i j m hi hj h0 hm hmpos hmin hfirst]

theorem claim_C4_witness :
    selectHint (gridOf emptyBoardList) (gridOf wSolList) =
      some ⟨0, 0, gridOf wSolList 0 0, false⟩ :=
  claim_C4 (gridOf emptyBoardList) (gridOf wSolList) 0 0 9 (by decide) (by decide)
    (by decide) (by decide) (by decide) (by decide) (by decide) (by decide)

/-! ### The implementation candidate list against the spec candidate set -/

lemma mem_specRowDigits {board : Grid} {row d : ℕ} :
    d ∈ specRowDigits board row ↔ ∃ jj, jj < 9 ∧ board row jj ≠ 0 ∧ board row jj = d := by
  simp [specRowDigits, Finset.mem_image, Finset.mem_filter, Finset.mem_range]
  tauto

lemma mem_specColDigits {board : Grid} {col d : ℕ} :
    d ∈ specColDigits board col ↔ ∃ ii, ii < 9 ∧ board ii col ≠ 0 ∧ board ii col = d := by
  simp [specColDigits, Finset.mem_image, Finset.mem_filter, Finset.mem_range]
  tauto

lemma mem_specBoxDigits {board : Grid} {row col d : ℕ} :
    d ∈ specBoxDigits board row col ↔
      ∃ a, a < 3 ∧ ∃ b, b < 3 ∧ board (3 * (row / 3) + a) (3 * (col / 3) + b) ≠ 0 ∧
        board (3 * (row / 3) + a) (3 * (col / 3) + b) = d := by
  simp [specBoxDigits, Finset.mem_image, Finset.mem_filter, Finset.mem_product,
    Finset.mem_range]
  tauto

lemma rowVals_iff_spec {board : Grid} {row d : ℕ} (hd : d ≠ 0) :
    d ∈ rowVals board row ↔ d ∈ specRowDigits board row := by
  rw [mem_rowVals, mem_specRowDigits]
  constructor
  · rintro ⟨⟨jj, hjj, hb⟩, _⟩
    exact ⟨jj, hjj, by rw [hb]; exact hd, hb⟩
  · rintro ⟨jj, hjj, _, hb⟩
    exact ⟨⟨jj, hjj, hb⟩, hd⟩

lemma colVals_iff_spec {board : Grid} {col d : ℕ} (hd : d ≠ 0) :
    d ∈ colVals board col ↔ d ∈ specColDigits board col := by
  rw [mem_colVals, mem_specColDigits]
  constructor
  · rintro ⟨⟨ii, hii, hb⟩, _⟩
    exact ⟨ii, hii, by rw [hb]; exact hd, hb⟩
  · rintro ⟨ii, hii, _, hb⟩
    exact ⟨⟨ii, hii, hb⟩, hd⟩

lemma boxVals_iff_spec {board : Grid} {row col d : ℕ} (hd : d ≠ 0) :
    d ∈ boxVals board row col ↔ d ∈ specBoxDigits board row col := by
  rw [mem_boxVals, mem_specBoxDigits]
  constructor
  · rintro ⟨⟨c, hc, hb⟩, _⟩
    obtain ⟨a, ha, b, hb3, rfl⟩ := mem_boxCells.mp hc
    exact ⟨a, ha, b, hb3, by rw [hb]; exact hd, hb⟩
  · rintro ⟨a, ha, b, hb3, _, hb⟩
    refine ⟨⟨(3 * (row / 3) + a, 3 * (col / 3) + b), ?_, hb⟩, hd⟩
    exact mem_boxCells.mpr ⟨a, ha, b, hb3, rfl⟩

/-- C5: candidates(board, row, col) is exactly the set 1..9 minus the
non-zero digits of the row, of the column, and of the containing 3x3 box
(spec wording); in particular it is duplicate-free, never contains a
digit present in the row, column or box, and is empty when those digits
cover all of 1..9. -/
theorem claim_C5 (board : Grid) (row col : ℕ) (hrow : row < 9) (hcol : col < 9)
    (hentries : ∀ a, a < 9 → ∀ b, b < 9 → board a b ≤ 9) :
    (get_candidates board row col).toFinset = specCandidates board row col ∧
    (get_candidates board row col).Nodup ∧
    (∀ d ∈ get_candidates board row col,
      d ∉ specRowDigits board row ∧ d ∉ specColDigits board col ∧
        d ∉ specBoxDigits board row col) ∧
    (Finset.Icc 1 9 ⊆
        specRowDigits board row ∪ specColDigits board col ∪
          specBoxDigits board row col →
      get_candidates board row col = []) := by
  have hmem : ∀ d, d ∈ get_candidates board row col ↔ d ∈ specCandidates board row col := by
    intro d
    rw [mem_get_candidates, specCandidates, Finset.mem_sdiff, Finset.mem_Icc]
    constructor
    · rintro ⟨⟨h1, h9⟩, hr, hc, hb⟩
      have hd : d ≠ 0 := by omega
      refine ⟨⟨h1, h9⟩, ?_⟩
      intro hu
      rcases Finset.mem_union.mp hu with hu | hu
      · rcases Finset.mem_union.mp hu with hu | hu
        · exact hr ((rowVals_iff_spec hd).mpr hu)
        · exact hc ((colVals_iff_spec hd).mpr hu)
      · exact hb ((boxVals_iff_spec hd).mpr hu)
    · rintro ⟨⟨h1, h9⟩, hu⟩
      have hd : d ≠ 0 := by omega
      refine ⟨⟨h1, h9⟩, ?_, ?_, ?_⟩
      · intro hr
        exact hu (Finset.mem_union_left _ (Finset.mem_union_left _
          ((rowVals_iff_spec hd).mp hr)))
      · intro hc
        exact hu (Finset.mem_union_left _ (Finset.mem_union_right _
          ((colVals_iff_spec hd).mp hc)))
      · intro hb
        exact hu (Finset.mem_union_right _ ((boxVals_iff_spec hd).mp hb))
  refine ⟨?_, nodup_get_candidates board row col, ?_, ?_⟩
  · ext d
    rw [List.mem_toFinset]
    exact hmem d
  · intro d hd
    have hspec := (hmem d).mp hd
    rw [specCandidates, Finset.mem_sdiff] at hspec
    refine ⟨?_, ?_, ?_⟩ <;> intro hin <;> apply hspec.2
    · exact Finset.mem_union_left _ (Finset.mem_union_left _ hin)
    · exact Finset.mem_union_left _ (Finset.mem_union_right _ hin)
    · exact Finset.mem_union_right _ hin
  · intro hcover
    rw [List.eq_nil_iff_forall_not_mem]
    intro d hd
    have hspec := (hmem d).mp hd
    rw [specCandidates, Finset.mem_sdiff] at hspec
    exact hspec.2 (hcover hspec.1)

theorem claim_C5_witness :
    (get_candidates (gridOf cexBoardList) 0 1).toFinset =
      specCandidates (gridOf cexBoardList) 0 1 :=
  (claim_C5 (gridOf cexBoardList) 0 1 (by decide) (by decide) (by decide)).1

/-! ### No-hint is exactly board complete and correct -/

/-- In a board agreeing with a valid solution on its non-empty cells, the
solution digit of an empty cell is always one of its candidates. -/
lemma sol_candidate (board sol : Grid) (hvalid : validSolution sol)
    (hagree : ∀ a, a < 9 → ∀ b, b < 9 → board a b ≠ 0 → board a b = sol a b)
    (r c : ℕ) (hr : r < 9) (hc : c < 9) (h0 : board r c = 0) :
    sol r c ∈ get_candidates board r c := by
  obtain ⟨hrange, hrowd, hcold, hboxd⟩ := hvalid
  obtain ⟨h1, h9⟩ := hrange r hr c hc
  rw [mem_get_candidates]
  refine ⟨⟨h1, h9⟩, ?_, ?_, ?_⟩
  · intro hmem
    obtain ⟨⟨jj, hjj, hbj⟩, _⟩ := mem_rowVals.mp hmem
    have hbne : board r jj ≠ 0 := by rw [hbj]; omega
    have hsj : sol r jj = sol r c := by rw [← hagree r hr jj hjj hbne, hbj]
    have hjc : jj = c := hrowd r hr jj hjj c hc hsj
    rw [hjc] at hbne
    exact hbne h0
  · intro hmem
    obtain ⟨⟨ii, hii, hbi⟩, _⟩ := mem_colVals.mp hmem
    have hbne : board ii c ≠ 0 := by rw [hbi]; omega
    have hsi : sol ii c = sol r c := by rw [← hagree ii hii c hc hbne, hbi]
    have hic : ii = r := hcold c hc ii hii r hr hsi
    rw [hic] at hbne
    exact hbne h0
  · intro hmem
    obtain ⟨⟨p, hp, hbp⟩, _⟩ := mem_boxVals.mp hmem
    obtain ⟨a, ha, b, hb, rfl⟩ := mem_boxCells.mp hp
    have hi9 : 3 * (r / 3) + a < 9 := by omega
    have hj9 : 3 * (c / 3) + b < 9 := by omega
    have hbne : board (3 * (r / 3) + a) (3 * (c / 3) + b) ≠ 0 := by rw [hbp]; omega
    have hsp : sol (3 * (r / 3) + a) (3 * (c / 3) + b) = sol r c := by
      rw [← hagree _ hi9 _ hj9 hbne, hbp]
    have hdiv1 : (3 * (r / 3) + a) / 3 = r / 3 := by omega
    have hdiv2 : (3 * (c / 3) + b) / 3 = c / 3 := by omega
    obtain ⟨he1, he2⟩ := hboxd _ hi9 _ hj9 r hr c hc hdiv1 hdiv2 hsp
    rw [he1] at hbne
    rw [he2] at hbne
    exact hbne h0

/-- selectHint returns none exactly when the board equals the (valid)
solution on all 81 cells. -/
lemma selectHint_none_iff (board sol : Grid) (hvalid : validSolution sol) :
    selectHint board sol = none ↔
      ∀ a, a < 9 → ∀ b, b < 9 → board a b = sol a b := by
  constructor
  · intro hnone
    unfold selectHint at hnone
    cases hfi : findIncorrect board sol with
    | some c => rw [hfi] at hnone; exact Option.noConfusion hnone
    | none =>
      rw [hfi] at hnone
      cases hcs : (completionScan board).hint_cell with
      | some c => rw [hcs] at hnone; exact Option.noConfusion hnone
      | none =>
        have hagree : ∀ a, a < 9 → ∀ b, b < 9 → board a b ≠ 0 →
            board a b = sol a b := by
          intro a ha b hb hab
          have hmem : (a, b) ∈ cells := mem_cells.mpr ⟨ha, hb⟩
          have hnp := List.find?_eq_none.mp hfi (a, b) hmem
          unfold is_incorrect_cell at hnp
          rw [if_neg hab] at hnp
          simpa using hnp
        have hfull : ∀ a, a < 9 → ∀ b, b < 9 → board a b ≠ 0 := by
          intro a ha b hb
          by_contra hzero
          have h0 : board a b = 0 := hzero
          have hsc := sol_candidate board sol hvalid hagree a b ha hb h0
          have hpos : 0 < (get_candidates board a b).length :=
            List.length_pos.mpr (List.ne_nil_of_mem hsc)
          have hle := foldl_comp_le board cells ⟨10, none⟩ (a, b)
            (mem_cells.mpr ⟨ha, hb⟩) h0 hpos
          have hstuck : cells.foldl (compStep board) ⟨10, none⟩ = ⟨10, none⟩ :=
            foldl_comp_none board cells ⟨10, none⟩ hcs
          rw [hstuck] at hle
          have h9 := length_get_candidates_le board a b
          dsimp at hle
          omega
        intro a ha b hb
        exact hagree a ha b hb (hfull a ha b hb)
  · intro heq
    have hfi : findIncorrect board sol = none := by
      apply List.find?_eq_none.mpr
      intro c hc
      obtain ⟨h1, h2⟩ := mem_cells.mp hc
      have hbs := heq c.1 h1 c.2 h2
      simp [is_incorrect_cell, hbs]
    have hcs : (completionScan board).hint_cell = none := by
      have hkeep : cells.foldl (compStep board) ⟨10, none⟩ = ⟨10, none⟩ := by
        apply foldl_comp_keep
        intro c hc hc0
        exfalso
        obtain ⟨h1, h2⟩ := mem_cells.mp hc
        have hbs := heq c.1 h1 c.2 h2
        have hlow := (hvalid.1 c.1 h1 c.2 h2).1
        omega
      show (cells.foldl (compStep board) ⟨10, none⟩).hint_cell = none
      rw [hkeep]
    unfold selectHint
    rw [hfi, hcs]

/-- C8: for a stored session of the requester whose solution is a
complete valid grid, getHint fails with no-hint exactly when the stored
board is fully filled and equal to the solution; any empty or differing
cell yields a hint. -/
theorem claim_C8 (db : Db) (cu : UserRec) (gid : ℕ) (g : GameStateRec)
    (hfind : findGame db gid = some g) (hown : g.user_id = cu.id)
    (hvalid : validSolution (gridOf g.solution)) :
    get_hint db cu gid = .error .noHint ↔
      ∀ a, a < 9 → ∀ b, b < 9 → gridOf g.board a b = gridOf g.solution a b := by
  have hsel := selectHint_none_iff (gridOf g.board) (gridOf g.solution) hvalid
  cases hs : selectHint (gridOf g.board) (gridOf g.solution) with
  | none =>
    simp only [get_hint, hfind, hown, hs, ne_eq, not_true_eq_false, if_false]
    constructor
    · intro _
      exact hsel.mp hs
    · intro _
      exact trivial
  | some h =>
    simp only [get_hint, hfind, hown, hs, ne_eq, not_true_eq_false, if_false]
    constructor
    · intro hcontra
      exact Except.noConfusion hcontra
    · intro hr
      have hnone := hsel.mpr hr
      rw [hs] at hnone
      exact Option.noConfusion hnone

theorem claim_C8_witness :
    get_hint wDbDone wAlice 1 = .error .noHint :=
  (claim_C8 wDbDone wAlice 1 wGameDone (by decide) rfl (by decide)).mpr (by decide)

/-! ### The explanation clauses of a correction hint -/

/-- C7 counterexample: on the stored two-3s board the hint corrects cell
(0,0), whose prior entry is the digit 3; yet the rendered column clause
and box clause of the explanation both list 3 as present (the duplicate
at (1,0) is excluded neither from the column nor from the box, being
excluded by position rather than by value), contradicting the claim that
the target cell's prior value is never listed as present. -/
theorem claim_C7_counterexample :
    get_hint wDbCex wAlice 1 =
      .ok ⟨0, 0, 1, .noDigits, .digits [3], .digits [3], true⟩ ∧
    gridOf wGameCex.board 0 0 = 3 := by
  constructor
  · rfl
  · rfl

/-- C7 amended: for a correction hint at (row, col), the row clause lists
the row's non-zero entries excluding every occurrence of the value held
at (row, col) (so a duplicate of the prior value elsewhere in the row is
omitted), while the column and box clauses exclude only the target cell
itself by position (so the prior value is listed when it occurs elsewhere
in the column or box); an empty list renders as the explicit no-digits
phrase. -/
theorem claim_C7 (board : Grid) (row col : ℕ) :
    (∀ d, d ∈ row_nums board row col ↔
      (∃ jj, jj < 9 ∧ board row jj = d) ∧ d ≠ 0 ∧ d ≠ board row col) ∧
    (∀ d, d ∈ col_nums board row col true ↔
      ∃ ii, ii < 9 ∧ ii ≠ row ∧ board ii col = d ∧ d ≠ 0) ∧
    (∀ d, d ∈ box_nums board row col true ↔
      ∃ p, p ∈ boxCells row col ∧ p ≠ (row, col) ∧ board p.1 p.2 = d ∧ d ≠ 0) ∧
    shownList [] = ShownDigits.noDigits ∧
    (∀ l : List ℕ, l ≠ [] → shownList l = ShownDigits.digits l) := by
  refine ⟨?_, ?_, ?_, rfl, ?_⟩
  · intro d
    simp [row_nums, List.mem_filter, List.mem_map, List.mem_range]
  · intro d
    simp [col_nums, List.mem_map, List.mem_filter, List.mem_range]
    constructor
    · rintro ⟨ii, ⟨hii, hb0, hir⟩, rfl⟩
      exact ⟨ii, hii, hir, rfl, hb0⟩
    · rintro ⟨ii, hii, hir, rfl, hd0⟩
      exact ⟨ii, ⟨hii, hd0, hir⟩, rfl⟩
  · intro d
    simp [box_nums, List.mem_map, List.mem_filter, Prod.ext_iff]
    constructor
    · rintro ⟨a, b, ⟨hp, hb0, hne⟩, rfl⟩
      refine ⟨a, b, hp, ?_, rfl, hb0⟩
      intro ha
      rcases hne with h | h
      · exact absurd ha h
      · exact h
    · rintro ⟨a, b, hp, hne, rfl, hd0⟩
      refine ⟨a, b, ⟨hp, hd0, ?_⟩, rfl⟩
      by_cases ha : a = row
      · exact Or.inr (hne ha)
      · exact Or.inl ha
  · intro l hl
    simp [shownList, hl]

theorem claim_C7_witness :
    3 ∈ col_nums (gridOf cexBoardList) 0 0 true ∧
    shownList [3] = ShownDigits.digits [3] :=
  ⟨((claim_C7 (gridOf cexBoardList) 0 0).2.1 3).mpr ⟨1, by decide⟩,
   (claim_C7 (gridOf cexBoardList) 0 0).2.2.2.2 [3] (by decide)⟩

end SudokuBackend
